import Mathlib

/-!
Verification development for the `primaryobjects/chatbot` repository
(`chatbot.ipynb`, `conversation.ipynb`): a retrieval-augmented chatbot with
conversation memory. Pure text processing, the TF-IDF-backed retrieval state
machine and the two conversation-memory backends are embedded shallowly.
External collaborators (the nltk sentence tokenizer and Porter stemmer, the
sklearn similarity kernel, the Cohere LLM call, the wall clock) enter as
parameters or as definitions modelled from the specification, as noted on
each definition.
-/

/-- Characters treated as whitespace by the Python `str.split()` /
`str.strip()` defaults that the notebook relies on. -/
def isWs (c : Char) : Bool := c.isWhitespace

/-- Helper for `sentTokenize`: cut the character stream after every `.`,
accumulating the current sentence in reverse. Structural recursion over the
character list. -/
def splitSentencesAux : List Char → List Char → List (List Char)
  | [], acc => if acc.isEmpty then [] else [acc.reverse]
  | c :: rest, acc =>
      if c = '.' then (c :: acc).reverse :: splitSentencesAux rest []
      else splitSentencesAux rest (c :: acc)

/-- Modelled from the spec: `nltk.sent_tokenize`, an external collaborator
("split text into sentences (locale-aware sentence boundary detection)";
"empty text yields an empty chunk sequence"). Sentences end at a period;
the inter-sentence whitespace is consumed (dropped from the start of the
following sentence); empty text yields no sentences. -/
def sentTokenize (text : String) : List String :=
  ((splitSentencesAux text.data []).map
    (fun cs => String.mk (cs.dropWhile isWs))).filter (fun s => s ≠ "")

/-- Helper for `pySplit`: split a character list on whitespace runs,
dropping empty pieces (Python `str.split()` with no separator). -/
def splitWsAux : List Char → List Char → List String
  | [], acc => if acc.isEmpty then [] else [String.mk acc.reverse]
  | c :: rest, acc =>
      if isWs c then
        (if acc.isEmpty then [] else [String.mk acc.reverse]) ++ splitWsAux rest []
      else splitWsAux rest (c :: acc)

/-- Python `chunk.split()`: split on whitespace runs, no empty pieces. -/
def pySplit (s : String) : List String := splitWsAux s.data []

/-- Python `str.strip()` on a character list: drop whitespace from both ends. -/
def stripChars (l : List Char) : List Char :=
  ((l.dropWhile isWs).reverse.dropWhile isWs).reverse

/-- Python `str.strip()` ("trimmed" in the specification). -/
def pyStrip (s : String) : String := String.mk (stripChars s.data)

/-- `' '.join([ps.stem(word) for word in chunk.split()])` from `process_text`:
the stemmed form of one chunk. The Porter stemmer `ps.stem` is an external
collaborator passed in as `stem`. -/
def stem_chunk (stem : String → String) (chunk : String) : String :=
  String.intercalate " " ((pySplit chunk).map stem)

/-- The sentence-accumulation loop of `process_text` (both notebooks,
identical code). State: the remaining sentences and the running `chunk`
buffer. When appending the next sentence would exceed `chunk_size`, the
buffer is flushed as one chunk (original plus stemmed form) and the
sentence starts a new buffer; otherwise `chunk += " " + sentence`. The
final non-empty buffer is flushed (`if chunk:`). -/
def process_text_go (stem : String → String) (chunk_size : Nat) :
    List String → String → List String × List String
  | [], chunk =>
      if chunk = "" then ([], []) else ([chunk], [stem_chunk stem chunk])
  | sentence :: rest, chunk =>
      if chunk.length + sentence.length > chunk_size then
        let r := process_text_go stem chunk_size rest sentence
        (chunk :: r.1, stem_chunk stem chunk :: r.2)
      else
        process_text_go stem chunk_size rest (chunk ++ " " ++ sentence)

/-- `process_text(text, chunk_size)`: sentence-tokenize the text and group
sentences into size-bounded chunks, returning the parallel pair
(original chunks, stemmed chunks). -/
def process_text (stem : String → String) (text : String) (chunk_size : Nat) :
    List String × List String :=
  process_text_go stem chunk_size (sentTokenize text) ""

/-- `CHUNK_SIZE = 99999` (both notebooks). -/
def CHUNK_SIZE : Nat := 99999

/-- `NUMBER_OF_MATCHES = 3` (both notebooks). -/
def NUMBER_OF_MATCHES : Nat := 3

/-- The executable stand-in for the comparison behind
`similarities.argsort()`. numpy's default sort kind (quicksort/introsort)
guarantees only that the values come out ascending and fixes NO order
among equal values, so this deterministic resolution (equal similarities
by index) exists purely to keep the embedding executable; `ArgsortRow`
below captures exactly what the program guarantees, and every property
that is sensitive to tie order is stated over all admissible rows, never
read off this choice. Out-of-range reads default to `0`; `argsortAsc`
only compares indices below `sims.length`. -/
def argsortLe (sims : List ℚ) (i j : Nat) : Prop :=
  sims.getD i 0 < sims.getD j 0 ∨ (sims.getD i 0 = sims.getD j 0 ∧ i ≤ j)

instance (sims : List ℚ) : DecidableRel (argsortLe sims) := fun i j => by
  unfold argsortLe
  infer_instance

/-- `similarities.argsort()[0]` on the (single) similarity row: the indices
`0, …, n-1` sorted ascending by similarity — the embedding's executable
representative among the admissible argsort rows (`ArgsortRow`). -/
def argsortAsc (sims : List ℚ) : List Nat :=
  List.insertionSort (argsortLe sims) (List.range sims.length)

/-- `similarities.argsort()[0][-top_n:][::-1]` from `find_best_matches`:
the last `top_n` entries of the ascending argsort, reversed. Python's
`[-0:]` degenerates to the whole list, hence the `top_n = 0` case. -/
def best_match_indices (sims : List ℚ) (top_n : Nat) : List Nat :=
  if top_n = 0 then (argsortAsc sims).reverse else (argsortAsc sims).reverse.take top_n

/-- The module-level retrieval state of the notebooks: the stemmed corpus
`documents`, the parallel `original_documents`, and the global `vectors`.
The fitted TF-IDF matrix is represented by the snapshot of the stemmed
corpus it was fitted on (`none` while `vectors is None`); the numeric row
`query_vector * vectors.T` is supplied by the external kernel `sim`, one
value per fitted document. -/
structure RagState where
  documents : List String
  original_documents : List String
  vectors : Option (List String)
deriving DecidableEq

/-- `reset_database()`: empty both corpora and set `vectors = None`. -/
def reset_database (_st : RagState) : RagState := ⟨[], [], none⟩

/-- `add_document(text)`: extend the stemmed corpus and refit. The Python
`vectors = vectorizer.fit_transform(documents)` binds a function-local
`vectors` (no `global` declaration), so the module-level `vectors` is NOT
updated; the fresh matrix is only returned. -/
def add_document (st : RagState) (text : List String) :
    Option (List String) × RagState :=
  let documents := st.documents ++ text
  (some documents, { st with documents := documents })

/-- `process_and_add_document(file_path, file_type)` after the external file
readers produced the chunk pair: extend `original_documents` and call
`add_document`, returning its result. -/
def process_and_add_document (st : RagState)
    (original_chunks processed_chunks : List String) :
    Option (List String) × RagState :=
  let st1 := { st with original_documents := st.original_documents ++ original_chunks }
  add_document st1 processed_chunks

/-- `initialize(file_name)` composed with the notebooks' top-level
`vectors = initialize(...)` assignment, which is how the global `vectors`
actually gets set before any query. -/
def init_database (st : RagState) (original_chunks processed_chunks : List String) :
    RagState :=
  let r := process_and_add_document st original_chunks processed_chunks
  { r.2 with vectors := r.1 }

/-- The similarity row of `find_best_matches`:
`query_processed = process_text(query)[1]`, then
`(query_vector * vectors.T).toarray()` row `0` — one value per document of
the fitted corpus, computed from the FIRST stemmed query chunk. When the
global `vectors` is `None` the attribute access `vectors.T` raises; when
the query yields no chunks, `argsort()[0]` raises (: both are modelled as
`Except.error`). -/
def query_similarities (stem : String → String) (sim : String → String → ℚ)
    (st : RagState) (query : String) : Except String (List ℚ) :=
  match st.vectors with
  | none => .error "AttributeError: vectors is None"
  | some fitted =>
    match (process_text stem query CHUNK_SIZE).2 with
    | [] => .error "IndexError: no query row"
    | q :: _ => .ok (fitted.map (fun d => sim q d))

/-- The local `best_match_indices` of `find_best_matches`. -/
def find_best_matches_indices (stem : String → String) (sim : String → String → ℚ)
    (st : RagState) (query : String) (top_n : Nat) : Except String (List Nat) :=
  (query_similarities stem sim st query).map (fun sims => best_match_indices sims top_n)

/-- `find_best_matches(query, top_n)`: map the best-match indices over
`original_documents` and `documents`. Python's `original_documents[i]`
raises on an out-of-range index; `getD … ""` stands for that partial
indexing (the indices produced are below the fitted corpus length). -/
def find_best_matches (stem : String → String) (sim : String → String → ℚ)
    (st : RagState) (query : String) (top_n : Nat) :
    Except String (List String × List String) :=
  (find_best_matches_indices stem sim st query top_n).map
    (fun idxs => (idxs.map (fun i => st.original_documents.getD i ""),
                  idxs.map (fun i => st.documents.getD i "")))

/-- `get_cohere_response` + `process_chat(user_query)`: retrieve, join the
original best matches with blank lines into `context`, call the external
LLM (`llm`, modelling the Cohere `co.chat` round trip including its
possible failure), and return `(response, context)`. -/
def process_chat (stem : String → String) (sim : String → String → ℚ)
    (llm : String → String → Except String String)
    (st : RagState) (user_query : String) : Except String (String × String) :=
  match find_best_matches stem sim st user_query NUMBER_OF_MATCHES with
  | .error e => .error e
  | .ok (original_best_matches, _processed_best_matches) =>
    let context := String.intercalate "\n\n" original_best_matches
    match llm user_query context with
    | .error e => .error e
    | .ok response => .ok (response, context)

/-- An entry of the list-backed `conversation_history`. -/
structure ConversationEntry where
  user_input : String
  search_result_context : String
  llm_response : String
deriving DecidableEq

/-- An entry of the TTL-cache-backed history (`add_to_conversation_cache`
also stores the creation timestamp; `datetime.now().isoformat()` is
modelled by the `Nat` instant `timestamp`). -/
structure CacheEntry where
  user_input : String
  search_result_context : String
  llm_response : String
  timestamp : Nat
deriving DecidableEq

/-- The delimiter joining serialized history entries. -/
def HISTORY_SEP : String := "\n\n=========================\n\n"

/-- One serialized history entry
(`f"User: …\nSearch Result Context: …\nLLM Response: …"`). -/
def render_entry (u c r : String) : String :=
  "User: " ++ u ++ "\nSearch Result Context: " ++ c ++ "\nLLM Response: " ++ r

/-- The serialized conversation history: entries rendered and joined with
`HISTORY_SEP` (identical code in `conversation` and `conversation_cache`). -/
def serialize_history (entries : List (String × String × String)) : String :=
  String.intercalate HISTORY_SEP (entries.map (fun e => render_entry e.1 e.2.1 e.2.2))

/-- The fixed preamble opening the composite prompt of `conversation` /
`conversation_cache`. -/
def PROMPT_PREAMBLE : String :=
  "This is the entire conversation up to this point. Use this as additional context when answering the question from the user.\n CONTEXT: "

/-- The composite prompt built by `conversation` / `conversation_cache`:
fixed preamble, serialized history, delimiter, literal user query. This
whole string is what gets passed on as the `user_query` argument of
`process_chat`, i.e. it is both the similarity-search text and the LLM
query. -/
def composite_query (history user_query : String) : String :=
  PROMPT_PREAMBLE ++ history ++ "\n\n" ++ "\n\n=========================\n\n USER QUERY: " ++ user_query

/-- `add_to_conversation`: append an entry to the list-backed history. -/
def add_to_conversation (history : List ConversationEntry) (u c r : String) :
    List ConversationEntry :=
  history ++ [⟨u, c, r⟩]

/-- The composite prompt `conversation` submits to `process_chat` (and thus
to `find_best_matches`). -/
def conversation_query (history : List ConversationEntry) (user_query : String) : String :=
  composite_query
    (serialize_history (history.map
      (fun e => (e.user_input, e.search_result_context, e.llm_response))))
    user_query

/-- `conversation(user_query)` over the list backend: build the composite
prompt, run `process_chat` on it, and on success append the round to the
history. An exception from `process_chat` propagates before
`add_to_conversation` runs, so the history is returned unchanged. -/
def conversation (stem : String → String) (sim : String → String → ℚ)
    (llm : String → String → Except String String) (st : RagState)
    (history : List ConversationEntry) (user_query : String) :
    Except String String × List ConversationEntry :=
  match process_chat stem sim llm st (conversation_query history user_query) with
  | .error e => (.error e, history)
  | .ok (response, context) =>
      (.ok response, add_to_conversation history user_query context response)

/-- The state of `cachetools.TTLCache(maxsize, ttl)` as used by the
notebook: an insertion-ordered association list from the timestamp key
(`datetime.now().isoformat()`, modelled as a `Nat` instant) to the entry.
An item inserted at key `k` expires once `k + ttl ≤ now`. -/
structure TTLCacheState where
  maxsize : Nat
  ttl : Nat
  items : List (Nat × CacheEntry)
deriving DecidableEq

/-- `TTLCache.expire(time)`: drop every expired item. -/
def TTLCacheState.expireItems (c : TTLCacheState) (now : Nat) : TTLCacheState :=
  { c with items := c.items.filter (fun it => decide (now < it.1 + c.ttl)) }

/-- `cache[k] = v` on a `TTLCache`, at instant `now`: first expire, then
either overwrite an existing key (the item is relinked to the end with a
fresh expiry) or, when at capacity, pop oldest items from the front until
the new item fits, and append it. -/
def TTLCacheState.setitem (c : TTLCacheState) (now k : Nat) (v : CacheEntry) :
    TTLCacheState :=
  let c1 := c.expireItems now
  if c1.items.any (fun it => it.1 == k) then
    { c1 with items := c1.items.filter (fun it => it.1 != k) ++ [(k, v)] }
  else
    let kept :=
      if c1.maxsize ≤ c1.items.length then
        c1.items.drop (c1.items.length + 1 - c1.maxsize)
      else c1.items
    { c1 with items := kept ++ [(k, v)] }

/-- `list(cache.values())` at instant `now`: the unexpired entries in
insertion order (reads do not mutate the cache). This is the
specification's `snapshot()`. -/
def TTLCacheState.values (c : TTLCacheState) (now : Nat) : List CacheEntry :=
  (c.items.filter (fun it => decide (now < it.1 + c.ttl))).map (fun it => it.2)

/-- `conversation_ttl_cache = TTLCache(maxsize=1000, ttl=1800)`, initially
empty. -/
def conversation_ttl_cache : TTLCacheState := ⟨1000, 1800, []⟩

/-- `add_to_conversation_cache(user_input, search_result_context,
llm_response)`: stamp the entry with the current instant and store it under
`conversation_ttl_cache[current_time]` — the key IS the timestamp. -/
def add_to_conversation_cache (c : TTLCacheState) (now : Nat)
    (user_input search_result_context llm_response : String) : TTLCacheState :=
  c.setitem now now ⟨user_input, search_result_context, llm_response, now⟩

/-- The composite prompt `conversation_cache` submits to `process_chat`
(and thus to `find_best_matches`): preamble, serialized
`list(conversation_ttl_cache.values())`, delimiter, the raw user query. -/
def conversation_cache_query (c : TTLCacheState) (now : Nat) (user_query : String) :
    String :=
  composite_query
    (serialize_history ((c.values now).map
      (fun e => (e.user_input, e.search_result_context, e.llm_response))))
    user_query

/-- `conversation_cache(user_query)` at instant `now`: build the composite
prompt from the cached history, run `process_chat` on it, and on success
record the round via `add_to_conversation_cache`. An exception from
`process_chat` propagates before the record step, so the cache is returned
unchanged. There is no special handling of any literal input token: every
`user_query`, whatever its text, takes this same path. -/
def conversation_cache (stem : String → String) (sim : String → String → ℚ)
    (llm : String → String → Except String String) (st : RagState)
    (c : TTLCacheState) (now : Nat) (user_query : String) :
    Except String String × TTLCacheState :=
  match process_chat stem sim llm st (conversation_cache_query c now user_query) with
  | .error e => (.error e, c)
  | .ok (response, context) =>
      (.ok response, add_to_conversation_cache c now user_query context response)

example : sentTokenize "The cat sat. The dog ran." = ["The cat sat.", "The dog ran."] := by decide
example : sentTokenize "" = [] := by decide
example : pySplit " a  bb " = ["a", "bb"] := by decide
example : pyStrip "  ab c  " = "ab c" := by decide
example : process_text id "The cat sat. The dog ran." 99999 =
    ([" The cat sat. The dog ran."], ["The cat sat. The dog ran."]) := by decide
example : process_text id "The cat sat. The dog ran." 13 =
    ([" The cat sat.", "The dog ran."], ["The cat sat.", "The dog ran."]) := by decide
example : process_text id "Hello world." 5 =
    (["", "Hello world."], ["", "Hello world."]) := by decide

/-- A string of positive length is not the empty string. -/
theorem ne_empty_of_length_pos {s : String} (h : 0 < s.length) : s ≠ "" := by
  intro he
  rw [he] at h
  exact absurd h (by decide)

/-- C6: a query issued on the pre-ingestion state (empty corpus, global
`vectors` still `None`) makes `find_best_matches` signal an error
synchronously (`vectors.T` raises on `None`), rather than returning a
result or swallowing the failure. -/
theorem find_best_matches_unfitted_errors (stem : String → String)
    (sim : String → String → ℚ) (st : RagState) (q : String) (top_n : Nat)
    (_hdocs : st.documents = []) (hvec : st.vectors = none) :
    find_best_matches stem sim st q top_n = .error "AttributeError: vectors is None" := by
  simp [find_best_matches, find_best_matches_indices, query_similarities, hvec, Except.map]

/-- Witness for C6 at the freshly reset state and a concrete query. -/
theorem find_best_matches_unfitted_errors_witness :
    (reset_database ⟨["d"], ["D"], some ["d"]⟩).documents = [] ∧
    (reset_database ⟨["d"], ["D"], some ["d"]⟩).vectors = none ∧
    find_best_matches id (fun _ _ => 1) (reset_database ⟨["d"], ["D"], some ["d"]⟩) "Hi." 3
      = .error "AttributeError: vectors is None" :=
  ⟨rfl, rfl, find_best_matches_unfitted_errors id (fun _ _ => 1) _ "Hi." 3 rfl rfl⟩

/-- C7: when the external generation call fails, the failure propagates out
of `process_chat` before `add_to_conversation` / `add_to_conversation_cache`
runs, so neither conversation memory records any entry (full or partial):
each backend's memory after the failed round equals the memory before it. -/
theorem conversation_memory_unchanged_on_llm_error (stem : String → String)
    (sim : String → String → ℚ) (llm : String → String → Except String String)
    (st : RagState) (history : List ConversationEntry) (c : TTLCacheState)
    (now : Nat) (q : String) (e : String) (hllm : ∀ a b, llm a b = .error e) :
    (conversation stem sim llm st history q).2 = history ∧
    (conversation_cache stem sim llm st c now q).2 = c := by
  constructor
  · unfold conversation process_chat
    cases hf : find_best_matches stem sim st (conversation_query history q)
        NUMBER_OF_MATCHES with
    | error e' => simp
    | ok pair => simp [hllm]
  · unfold conversation_cache process_chat
    cases hf : find_best_matches stem sim st (conversation_cache_query c now q)
        NUMBER_OF_MATCHES with
    | error e' => simp
    | ok pair => simp [hllm]

/-- Witness for C7 with a concretely failing LLM and one prior entry in
each backend. -/
theorem conversation_memory_unchanged_on_llm_error_witness :
    (∀ a b : String, (fun _ _ => (.error "timeout" : Except String String)) a b
        = .error "timeout") ∧
    (conversation id (fun _ _ => 1) (fun _ _ => .error "timeout")
        ⟨["d."], ["D."], some ["d."]⟩ [⟨"q0", "c0", "r0"⟩] "Hi.").2 = [⟨"q0", "c0", "r0"⟩] ∧
    (conversation_cache id (fun _ _ => 1) (fun _ _ => .error "timeout")
        ⟨["d."], ["D."], some ["d."]⟩ ⟨1000, 1800, [(0, ⟨"q0", "c0", "r0", 0⟩)]⟩ 5 "Hi.").2
      = ⟨1000, 1800, [(0, ⟨"q0", "c0", "r0", 0⟩)]⟩ := by
  refine ⟨fun a b => rfl, ?_⟩
  exact conversation_memory_unchanged_on_llm_error id (fun _ _ => 1)
    (fun _ _ => .error "timeout") ⟨["d."], ["D."], some ["d."]⟩ [⟨"q0", "c0", "r0"⟩]
    ⟨1000, 1800, [(0, ⟨"q0", "c0", "r0", 0⟩)]⟩ 5 "Hi." "timeout" (fun a b => rfl)

/-- The `ttl` field of the cache is never changed by `setitem`. -/
theorem TTLCacheState.ttl_setitem (c : TTLCacheState) (now k : Nat) (v : CacheEntry) :
    (c.setitem now k v).ttl = c.ttl := by
  unfold TTLCacheState.setitem TTLCacheState.expireItems
  dsimp only
  split <;> rfl

/-- The `ttl` field of the cache is never changed by a record operation. -/
theorem ttl_add_to_conversation_cache (c : TTLCacheState) (now : Nat) (u x r : String) :
    (add_to_conversation_cache c now u x r).ttl = c.ttl :=
  TTLCacheState.ttl_setitem c now now _

/-- C9: two records carrying the same timestamp (identical
`datetime.now().isoformat()` strings) hit the same cache key, so the second
`add_to_conversation_cache` overwrites the first: starting from the empty
cache, two records at the same instant leave a single entry — the second
one — although nothing expired (`1 ≤ E`, same instant) and capacity was
never exceeded (`1 ≤ C`). Hence `n` records can leave fewer than `n`
entries. -/
theorem add_twice_same_timestamp_overwrites (C E now : Nat) (_hC : 1 ≤ C)
    (hE : 1 ≤ E) (u1 x1 r1 u2 x2 r2 : String) :
    (add_to_conversation_cache (add_to_conversation_cache ⟨C, E, []⟩ now u1 x1 r1)
        now u2 x2 r2).items = [(now, ⟨u2, x2, r2, now⟩)] ∧
    (add_to_conversation_cache (add_to_conversation_cache ⟨C, E, []⟩ now u1 x1 r1)
        now u2 x2 r2).values now = [⟨u2, x2, r2, now⟩] := by
  have hlt : now < now + E := by omega
  have h1 : (add_to_conversation_cache ⟨C, E, []⟩ now u1 x1 r1).items
      = [(now, ⟨u1, x1, r1, now⟩)] := by
    simp [add_to_conversation_cache, TTLCacheState.setitem, TTLCacheState.expireItems]
  have h2 : (add_to_conversation_cache (add_to_conversation_cache ⟨C, E, []⟩ now u1 x1 r1)
      now u2 x2 r2).items = [(now, ⟨u2, x2, r2, now⟩)] := by
    unfold add_to_conversation_cache TTLCacheState.setitem TTLCacheState.expireItems
    simp [h1, hlt]
  have httl : (add_to_conversation_cache (add_to_conversation_cache ⟨C, E, []⟩
      now u1 x1 r1) now u2 x2 r2).ttl = E := by
    rw [ttl_add_to_conversation_cache, ttl_add_to_conversation_cache]
  refine ⟨h2, ?_⟩
  simp [TTLCacheState.values, h2, httl, hlt]

/-- Witness for C9 at concrete values (`C = 1000`, `E = 1800`, the
notebook's cache parameters). -/
theorem add_twice_same_timestamp_overwrites_witness :
    1 ≤ 1000 ∧ 1 ≤ 1800 ∧
    (add_to_conversation_cache (add_to_conversation_cache ⟨1000, 1800, []⟩ 7 "a" "b" "c")
        7 "d" "e" "f").items = [(7, ⟨"d", "e", "f", 7⟩)] ∧
    (add_to_conversation_cache (add_to_conversation_cache ⟨1000, 1800, []⟩ 7 "a" "b" "c")
        7 "d" "e" "f").values 7 = [⟨"d", "e", "f", 7⟩] := by
  refine ⟨by decide, by decide, ?_, ?_⟩
  · exact (add_twice_same_timestamp_overwrites 1000 1800 7 (by decide) (by decide)
      "a" "b" "c" "d" "e" "f").1
  · exact (add_twice_same_timestamp_overwrites 1000 1800 7 (by decide) (by decide)
      "a" "b" "c" "d" "e" "f").2

/-- `maxsize` is never changed by `setitem`. -/
theorem TTLCacheState.maxsize_setitem (c : TTLCacheState) (now k : Nat) (v : CacheEntry) :
    (c.setitem now k v).maxsize = c.maxsize := by
  unfold TTLCacheState.setitem TTLCacheState.expireItems
  dsimp only
  split <;> rfl

/-- One recorded round per clock tick: fold `add_to_conversation_cache`
over the given rounds, the `i`-th at instant `t0 + i` (timestamps coming
from a monotone microsecond clock are pairwise distinct). -/
def record_rounds (c : TTLCacheState) (t0 : Nat) :
    List (String × String × String) → TTLCacheState
  | [] => c
  | r :: rest =>
      record_rounds (add_to_conversation_cache c t0 r.1 r.2.1 r.2.2) (t0 + 1) rest

/-- The cache items those rounds create: the `i`-th round keyed and
stamped `t0 + i`. -/
def round_items (t0 : Nat) : List (String × String × String) → List (Nat × CacheEntry)
  | [] => []
  | r :: rest => (t0, ⟨r.1, r.2.1, r.2.2, t0⟩) :: round_items (t0 + 1) rest

/-- `round_items` keys: they carry the instants `t0, …` in order, each
entry stamped with its own key. -/
theorem round_items_keys :
    ∀ (rounds : List (String × String × String)) (t0 : Nat),
      ∀ p ∈ round_items t0 rounds,
        t0 ≤ p.1 ∧ p.1 < t0 + rounds.length ∧ p.2.timestamp = p.1 := by
  intro rounds
  induction rounds with
  | nil => intro t0 p hp; simp [round_items] at hp
  | cons r rest ih =>
    intro t0 p hp
    rw [round_items, List.mem_cons] at hp
    rcases hp with hp | hp
    · subst hp
      refine ⟨Nat.le_refl _, by simp, rfl⟩
    · obtain ⟨h1, h2, h3⟩ := ih (t0 + 1) p hp
      exact ⟨by omega, by simpa [Nat.add_comm, Nat.add_left_comm] using by omega, h3⟩

/-- `round_items` has one item per round. -/
theorem round_items_length :
    ∀ (rounds : List (String × String × String)) (t0 : Nat),
      (round_items t0 rounds).length = rounds.length := by
  intro rounds
  induction rounds with
  | nil => intro t0; rfl
  | cons r rest ih => intro t0; simp [round_items, ih]

/-- The shape of one record step when every present key is strictly in the
past (`< now`) and nothing has expired at `now`: expiry filters nothing,
the key is fresh, and (only) when the cache is full the oldest items are
popped from the front before the new item is appended. -/
theorem add_to_conversation_cache_eq (c : TTLCacheState) (now : Nat) (u x r : String)
    (hkey : ∀ p ∈ c.items, p.1 < now)
    (hfresh : ∀ p ∈ c.items, now < p.1 + c.ttl) :
    add_to_conversation_cache c now u x r
      = ⟨c.maxsize, c.ttl,
          (if c.maxsize ≤ c.items.length then
            c.items.drop (c.items.length + 1 - c.maxsize)
          else c.items) ++ [(now, ⟨u, x, r, now⟩)]⟩ := by
  have hfilter : c.items.filter (fun it => decide (now < it.1 + c.ttl)) = c.items :=
    List.filter_eq_self.mpr (fun p hp => by simpa using hfresh p hp)
  have hany : (c.items.any fun it => it.1 == now) = false := by
    simp only [List.any_eq_false]
    intro p hp
    simpa using Nat.ne_of_lt (hkey p hp)
  unfold add_to_conversation_cache TTLCacheState.setitem TTLCacheState.expireItems
  dsimp only
  rw [hfilter, hany]
  simp

/-- Folding records at consecutive instants over a cache whose items are
keyed strictly before `t0`, not yet over capacity, and fresh for the whole
run: the result holds the trailing `maxsize`-bounded suffix of
old-items-then-new-items, older items having been popped from the front
(oldest first) as capacity was exceeded. -/
theorem record_rounds_items (C E : Nat) (hC : 1 ≤ C) :
    ∀ (rounds : List (String × String × String)) (t0 : Nat) (c : TTLCacheState),
      c.maxsize = C → c.ttl = E →
      (∀ p ∈ c.items, p.1 < t0) →
      (∀ p ∈ c.items, t0 + rounds.length ≤ p.1 + E) →
      c.items.length ≤ C →
      rounds.length ≤ E →
      (record_rounds c t0 rounds).items
        = (c.items ++ round_items t0 rounds).drop (c.items.length + rounds.length - C) := by
  intro rounds
  induction rounds with
  | nil =>
    intro t0 c hmax httl hkey hfresh hlen hr
    have h0 : c.items.length + List.length ([] : List (String × String × String)) - C = 0 := by
      simp only [List.length_nil]
      omega
    rw [record_rounds, round_items, List.append_nil, h0, List.drop_zero]
  | cons r rest ih =>
    intro t0 c hmax httl hkey hfresh hlen hr
    have hstep := add_to_conversation_cache_eq c t0 r.1 r.2.1 r.2.2 hkey
      (fun p hp => by
        have hx := hfresh p hp
        rw [httl]
        simp only [List.length_cons] at hx
        omega)
    rw [record_rounds, hstep, hmax, httl]
    set e : CacheEntry := ⟨r.1, r.2.1, r.2.2, t0⟩ with he
    set len := c.items.length with hlendef
    by_cases hfull : C ≤ len
    · -- at capacity: pop `len + 1 - C` from the front, then append
      rw [if_pos hfull]
      have hdroplen : (c.items.drop (len + 1 - C)).length = C - 1 := by
        rw [List.length_drop]
        omega
      have ihres := ih (t0 + 1)
        ⟨C, E, c.items.drop (len + 1 - C) ++ [(t0, e)]⟩ rfl rfl
        (by
          intro p hp
          rcases List.mem_append.mp hp with hp | hp
          · have := hkey p (List.mem_of_mem_drop hp)
            omega
          · rcases List.mem_singleton.mp hp with rfl
            dsimp only
            omega)
        (by
          intro p hp
          rcases List.mem_append.mp hp with hp | hp
          · have hx := hfresh p (List.mem_of_mem_drop hp)
            simp only [List.length_cons] at hx
            omega
          · rcases List.mem_singleton.mp hp with rfl
            dsimp only
            simp only [List.length_cons] at hr
            omega)
        (by
          simp only [List.length_append, List.length_singleton, hdroplen]
          omega)
        (by
          simp only [List.length_cons] at hr
          omega)
      rw [ihres]
      have hlen2 : (c.items.drop (len + 1 - C) ++ [(t0, e)]).length = C := by
        simp only [List.length_append, List.length_singleton, hdroplen]
        omega
      rw [hlen2]
      have hamt : C + rest.length - C = rest.length := by omega
      rw [hamt]
      have hsplit : c.items ++ round_items t0 (r :: rest)
          = c.items ++ (t0, e) :: round_items (t0 + 1) rest := by
        rw [round_items]
      rw [hsplit]
      have hdropfront : (c.items ++ (t0, e) :: round_items (t0 + 1) rest).drop
            (len + (rest.length + 1) - C)
          = ((c.items.drop (len + 1 - C)) ++ (t0, e) :: round_items (t0 + 1) rest).drop
            rest.length := by
        have hsum : len + (rest.length + 1) - C = (len + 1 - C) + rest.length := by omega
        rw [hsum, ← List.drop_drop, List.drop_append_of_le_length (by omega)]
      rw [List.length_cons, hdropfront, List.append_assoc, List.singleton_append]
    · -- below capacity: plain append
      rw [if_neg hfull]
      have ihres := ih (t0 + 1) ⟨C, E, c.items ++ [(t0, e)]⟩ rfl rfl
        (by
          intro p hp
          rcases List.mem_append.mp hp with hp | hp
          · have := hkey p hp
            omega
          · rcases List.mem_singleton.mp hp with rfl
            dsimp only
            omega)
        (by
          intro p hp
          rcases List.mem_append.mp hp with hp | hp
          · have hx := hfresh p hp
            simp only [List.length_cons] at hx
            omega
          · rcases List.mem_singleton.mp hp with rfl
            dsimp only
            simp only [List.length_cons] at hr
            omega)
        (by
          simp only [List.length_append, List.length_singleton]
          omega)
        (by
          simp only [List.length_cons] at hr
          omega)
      rw [ihres]
      have hlen2 : (c.items ++ [(t0, e)]).length = len + 1 := by
        simp only [List.length_append, List.length_singleton]
      rw [hlen2]
      have hsplit : c.items ++ round_items t0 (r :: rest)
          = (c.items ++ [(t0, e)]) ++ round_items (t0 + 1) rest := by
        rw [round_items, List.append_assoc, List.singleton_append]
      rw [hsplit, List.length_cons]
      congr 1
      omega

/-- `record_rounds` never changes the `ttl` field. -/
theorem record_rounds_ttl :
    ∀ (rounds : List (String × String × String)) (c : TTLCacheState) (t0 : Nat),
      (record_rounds c t0 rounds).ttl = c.ttl := by
  intro rounds
  induction rounds with
  | nil => intro c t0; rfl
  | cons r rest ih =>
    intro c t0
    rw [record_rounds, ih, ttl_add_to_conversation_cache]

/-- C4: for the TTL-bounded memory with capacity `C` and expiry `E`
(`TTLCache(maxsize=C, ttl=E)`; the notebook instantiates `C = 1000`,
`E = 1800`): recording `C + 1` rounds at consecutive instants into the
empty cache leaves exactly `C` entries in `snapshot()` — precisely the
rounds after the first, i.e. the oldest entry was evicted first — and, for
every cache whose entries are stamped with their own key (as
`add_to_conversation_cache` stamps them), once the clock passes an entry's
creation time plus `ttl`, no entry with that timestamp appears in
`snapshot()` (`values`), without any explicit eviction call: validity is
re-checked on read. -/
theorem cache_capacity_and_expiry (C E t0 : Nat)
    (rounds : List (String × String × String))
    (hlen : rounds.length = C + 1) (hC : 1 ≤ C) (hE : C + 1 ≤ E) :
    ((record_rounds ⟨C, E, []⟩ t0 rounds).values (t0 + C)).length = C ∧
    (record_rounds ⟨C, E, []⟩ t0 rounds).values (t0 + C)
      = ((round_items t0 rounds).drop 1).map (fun p => p.2) ∧
    (∀ (c : TTLCacheState) (now t : Nat),
      (∀ p ∈ c.items, p.2.timestamp = p.1) → t + c.ttl ≤ now →
      ∀ v ∈ c.values now, v.timestamp ≠ t) := by
  have hitems := record_rounds_items C E hC rounds t0 ⟨C, E, []⟩ rfl rfl
    (by intro p hp; simp at hp) (by intro p hp; simp at hp)
    (by simp) (by omega)
  have hamt : (⟨C, E, []⟩ : TTLCacheState).items.length + rounds.length - C = 1 := by
    simp only [hlen]
    show 0 + (C + 1) - C = 1
    omega
  rw [hamt] at hitems
  have hitems' : (record_rounds ⟨C, E, []⟩ t0 rounds).items
      = (round_items t0 rounds).drop 1 := by
    rw [hitems]
    rfl
  have httl : (record_rounds ⟨C, E, []⟩ t0 rounds).ttl = E :=
    record_rounds_ttl rounds ⟨C, E, []⟩ t0
  have hvals : (record_rounds ⟨C, E, []⟩ t0 rounds).values (t0 + C)
      = ((round_items t0 rounds).drop 1).map (fun p => p.2) := by
    unfold TTLCacheState.values
    rw [httl, hitems']
    congr 1
    refine List.filter_eq_self.mpr ?_
    intro p hp
    have hmem : p ∈ round_items t0 rounds := List.mem_of_mem_drop hp
    obtain ⟨h1, _h2, _h3⟩ := round_items_keys rounds t0 p hmem
    simp only [decide_eq_true_eq]
    omega
  refine ⟨?_, hvals, ?_⟩
  · rw [hvals, List.length_map, List.length_drop, round_items_length, hlen]
    omega
  · intro c now t hinv hexp v hv
    unfold TTLCacheState.values at hv
    obtain ⟨p, hpf, hpv⟩ := List.mem_map.mp hv
    have hpmem := (List.mem_filter.mp hpf).1
    have hpdec := (List.mem_filter.mp hpf).2
    have hfreshp : now < p.1 + c.ttl := by simpa using hpdec
    intro hts
    rw [← hpv, hinv p hpmem] at hts
    omega

/-- Witness for C4: capacity `2`, expiry `5`, three rounds recorded at
instants `0, 1, 2`. -/
theorem cache_capacity_and_expiry_witness :
    ([("a", "a1", "a2"), ("b", "b1", "b2"), ("c", "c1", "c2")]
        : List (String × String × String)).length = 2 + 1 ∧
    1 ≤ 2 ∧ 2 + 1 ≤ 5 ∧
    (((record_rounds ⟨2, 5, []⟩ 0
          [("a", "a1", "a2"), ("b", "b1", "b2"), ("c", "c1", "c2")]).values (0 + 2)).length = 2 ∧
      (record_rounds ⟨2, 5, []⟩ 0
          [("a", "a1", "a2"), ("b", "b1", "b2"), ("c", "c1", "c2")]).values (0 + 2)
        = ((round_items 0
            [("a", "a1", "a2"), ("b", "b1", "b2"), ("c", "c1", "c2")]).drop 1).map
              (fun p => p.2) ∧
      (∀ (c : TTLCacheState) (now t : Nat),
        (∀ p ∈ c.items, p.2.timestamp = p.1) → t + c.ttl ≤ now →
        ∀ v ∈ c.values now, v.timestamp ≠ t)) :=
  ⟨by decide, by decide, by decide,
    cache_capacity_and_expiry 2 5 0
      [("a", "a1", "a2"), ("b", "b1", "b2"), ("c", "c1", "c2")]
      (by decide) (by decide) (by decide)⟩

/-- Total character count of a sentence list. -/
def sumLen (l : List String) : Nat := (l.map String.length).sum

/-- The single chunk the accumulation loop builds out of a sentence list
when no flush ever triggers: each sentence is appended after one space
(`chunk += " " + sentence`, starting from the empty buffer). -/
def sentConcat : List String → String
  | [] => ""
  | s :: rest => " " ++ s ++ sentConcat rest

/-- When the running buffer is non-empty and the whole remaining sentence
mass fits the chunk size (buffer + sentences + one joining space per
sentence, within `S + 1`), the loop never flushes: it returns a single
chunk, the buffer extended by all sentences. -/
theorem process_text_go_no_flush (stem : String → String) (S : Nat) :
    ∀ (sents : List String) (chunk : String), chunk ≠ "" →
      chunk.length + sumLen sents + sents.length ≤ S + 1 →
      process_text_go stem S sents chunk
        = ([chunk ++ sentConcat sents], [stem_chunk stem (chunk ++ sentConcat sents)]) := by
  intro sents
  induction sents with
  | nil =>
    intro chunk hne hb
    simp only [process_text_go, if_neg hne, sentConcat, String.append_empty]
  | cons s rest ih =>
    intro chunk hne hb
    have hsum : sumLen (s :: rest) = s.length + sumLen rest := by
      simp [sumLen]
    have hsp : (" " : String).length = 1 := rfl
    have hcond : ¬ (chunk.length + s.length > S) := by
      rw [hsum] at hb
      simp only [List.length_cons] at hb
      omega
    have hne' : chunk ++ " " ++ s ≠ "" := by
      apply ne_empty_of_length_pos
      rw [String.length_append, String.length_append]
      omega
    have hb' : (chunk ++ " " ++ s).length + sumLen rest + rest.length ≤ S + 1 := by
      rw [String.length_append, String.length_append, hsp]
      rw [hsum] at hb
      simp only [List.length_cons] at hb
      omega
    simp only [process_text_go, if_neg hcond]
    rw [ih (chunk ++ " " ++ s) hne' hb']
    have hassoc : chunk ++ " " ++ s ++ sentConcat rest = chunk ++ sentConcat (s :: rest) := by
      show chunk ++ " " ++ s ++ sentConcat rest = chunk ++ (" " ++ s ++ sentConcat rest)
      rw [String.append_assoc, String.append_assoc, String.append_assoc]
    rw [hassoc]

/-- `str.strip()` ignores a prepended space. -/
theorem pyStrip_space_append (s : String) : pyStrip (" " ++ s) = pyStrip s := by
  unfold pyStrip stripChars
  have h1 : (" " : String).data = [' '] := rfl
  have hdata : (" " ++ s).data = ' ' :: s.data := by
    rw [String.data_append, h1, List.singleton_append]
  rw [hdata, List.dropWhile_cons, if_pos (by decide)]

/-- C5 (amended): for a document with at least one sentence whose sentence
mass (total sentence characters plus one separating character per
boundary) fits within the document length, and any chunk size
`S ≥ length(D)`, `process_text` returns exactly one original chunk: the
sentences each preceded by one space (the single-space rejoining of the
sentences, with a leading space). Whenever the document IS its sentences
joined by single spaces (so that `" " ++ D` is that chunk), the chunk
stripped equals `D` stripped. -/
theorem process_text_whole_doc (stem : String → String) (D : String) (S : Nat)
    (hne : sentTokenize D ≠ [])
    (hsep : sumLen (sentTokenize D) + (sentTokenize D).length ≤ D.length + 1)
    (hS : D.length ≤ S) :
    (process_text stem D S).1 = [sentConcat (sentTokenize D)] ∧
    (" " ++ D = sentConcat (sentTokenize D) →
      (process_text stem D S).1.map pyStrip = [pyStrip D]) := by
  obtain ⟨s1, rest, hsents⟩ : ∃ s1 rest, sentTokenize D = s1 :: rest := by
    cases h : sentTokenize D with
    | nil => exact absurd h hne
    | cons a l => exact ⟨a, l, rfl⟩
  have hsum : sumLen (s1 :: rest) = s1.length + sumLen rest := by
    simp [sumLen]
  have hsep' : s1.length + sumLen rest + (rest.length + 1) ≤ D.length + 1 := by
    rw [hsents, hsum] at hsep
    simp only [List.length_cons] at hsep
    omega
  have h0 : ("" : String).length = 0 := rfl
  have hsp : (" " : String).length = 1 := rfl
  have hcond : ¬ (("" : String).length + s1.length > S) := by omega
  have hchunk : ("" : String) ++ " " ++ s1 = " " ++ s1 := by
    rw [String.empty_append]
  have hne' : (" " : String) ++ s1 ≠ "" := by
    apply ne_empty_of_length_pos
    rw [String.length_append]
    omega
  have hb' : ((" " : String) ++ s1).length + sumLen rest + rest.length ≤ S + 1 := by
    rw [String.length_append, hsp]
    omega
  have hmain : (process_text stem D S).1 = [sentConcat (sentTokenize D)] := by
    unfold process_text
    rw [hsents]
    simp only [process_text_go, if_neg hcond]
    rw [hchunk, process_text_go_no_flush stem S rest (" " ++ s1) hne' hb']
    show [" " ++ s1 ++ sentConcat rest] = [sentConcat (s1 :: rest)]
    rw [sentConcat, String.append_assoc]
  refine ⟨hmain, ?_⟩
  intro hD
  rw [hmain, ← hD]
  show [pyStrip (" " ++ D)] = [pyStrip D]
  rw [pyStrip_space_append]

/-- C5 counterexample: the empty document (`sent_tokenize("") = []`, and
the spec itself states empty text yields an EMPTY chunk sequence) with any
`S ≥ length("") = 0` makes `process_text` return zero chunks, not
"exactly one chunk" as claimed for every document. -/
theorem process_text_empty_doc_cex :
    "".length ≤ 0 ∧ (process_text id "" 0).1.length ≠ 1 := by decide

/-- Witness for the amended C5 at a two-sentence document whose sentences
are separated by single spaces. -/
theorem process_text_whole_doc_witness :
    sentTokenize "The cat sat. The dog ran." ≠ [] ∧
    sumLen (sentTokenize "The cat sat. The dog ran.")
        + (sentTokenize "The cat sat. The dog ran.").length
      ≤ "The cat sat. The dog ran.".length + 1 ∧
    "The cat sat. The dog ran.".length ≤ 30 ∧
    ((process_text id "The cat sat. The dog ran." 30).1
        = [sentConcat (sentTokenize "The cat sat. The dog ran.")] ∧
      (" " ++ "The cat sat. The dog ran."
          = sentConcat (sentTokenize "The cat sat. The dog ran.") →
        (process_text id "The cat sat. The dog ran." 30).1.map pyStrip
          = [pyStrip "The cat sat. The dog ran."])) :=
  ⟨by decide, by decide, by decide,
    process_text_whole_doc id "The cat sat. The dog ran." 30
      (by decide) (by decide) (by decide)⟩

/-- C10: when the first sentence alone exceeds the chunk size, the very
first loop iteration flushes the still-empty buffer, so the first original
chunk is the empty string and its stemmed counterpart is empty as well —
the chunk sequences may contain chunks that are not non-empty spans of the
source text. -/
theorem process_text_oversized_first_sentence (stem : String → String) (D : String)
    (S : Nat) (s1 : String) (rest : List String)
    (hsents : sentTokenize D = s1 :: rest) (hlong : S < s1.length) :
    (process_text stem D S).1.head? = some "" ∧
    (process_text stem D S).2.head? = some "" := by
  have h0 : ("" : String).length = 0 := rfl
  have hcond : ("" : String).length + s1.length > S := by omega
  unfold process_text
  rw [hsents]
  simp only [process_text_go, if_pos hcond]
  exact ⟨rfl, rfl⟩

/-- Witness for C10: a one-sentence document longer than chunk size 5. -/
theorem process_text_oversized_first_sentence_witness :
    sentTokenize "Hello world." = ["Hello world."] ∧ 5 < "Hello world.".length ∧
    ((process_text id "Hello world." 5).1.head? = some "" ∧
      (process_text id "Hello world." 5).2.head? = some "") :=
  ⟨by decide, by decide,
    process_text_oversized_first_sentence id "Hello world." 5 "Hello world." []
      (by decide) (by decide)⟩

set_option maxRecDepth 4000 in
/-- C1 (code evaluation): in both memory-aware rounds (`conversation` and
`conversation_cache`) the text submitted to `find_best_matches` is the
composite prompt — it decomposes around the full serialized history and,
because of the non-empty fixed preamble, is never equal to the raw user
query. The code conflates the similarity-search text with the LLM prompt;
the specification requires the raw user query for retrieval. -/
theorem conversation_retrieval_text_embeds_history (c : TTLCacheState) (now : Nat)
    (history : List ConversationEntry) (uq : String) :
    (∃ pre post : String,
      conversation_cache_query c now uq
        = pre ++ serialize_history ((c.values now).map
            (fun e => (e.user_input, e.search_result_context, e.llm_response))) ++ post) ∧
    conversation_cache_query c now uq ≠ uq ∧
    (∃ pre post : String,
      conversation_query history uq
        = pre ++ serialize_history (history.map
            (fun e => (e.user_input, e.search_result_context, e.llm_response))) ++ post) ∧
    conversation_query history uq ≠ uq := by
  have hP : 0 < PROMPT_PREAMBLE.length := by decide
  refine ⟨⟨PROMPT_PREAMBLE,
      "\n\n\n\n=========================\n\n USER QUERY: " ++ uq, ?_⟩, ?_,
    ⟨PROMPT_PREAMBLE,
      "\n\n\n\n=========================\n\n USER QUERY: " ++ uq, ?_⟩, ?_⟩
  · simp [conversation_cache_query, composite_query, String.append_assoc]
  · intro h
    have hlen := congrArg String.length h
    simp only [conversation_cache_query, composite_query, String.length_append] at hlen
    omega
  · simp [conversation_query, composite_query, String.append_assoc]
  · intro h
    have hlen := congrArg String.length h
    simp only [conversation_query, composite_query, String.length_append] at hlen
    omega

/-- Concrete retrieval state for evaluating C2: one indexed document. -/
def c2_state : RagState := ⟨["doc."], ["DOC."], some ["doc."]⟩

/-- Concrete conversation memory for evaluating C2: two recorded entries. -/
def c2_cache : TTLCacheState :=
  ⟨1000, 1800, [(0, ⟨"q1", "x1", "r1", 0⟩), (1, ⟨"q2", "x2", "r2", 1⟩)]⟩

/-- A concrete always-succeeding LLM stub, to observe whether a call is
issued. -/
def c2_llm : String → String → Except String String := fun _ _ => .ok "LLM REPLY"

set_option maxRecDepth 8000 in
/-- C2 counterexample: submitting the literal `/reset` to
`conversation_cache` after two recorded entries does NOT bypass
processing: the LLM is called and its reply returned (no fixed
acknowledgement), `snapshot()` is not empty afterwards, and the memory
even grows to three entries (a `/reset` round is recorded) — the memory is
not cleared. No reset token exists anywhere in the code; the notebook's
own text lists `/reset` / `/startover` only as a possible future
enhancement. -/
theorem conversation_cache_reset_token_cex :
    (conversation_cache id (fun _ _ => 1) c2_llm c2_state c2_cache 10 "/reset").1
        = .ok "LLM REPLY" ∧
    ((conversation_cache id (fun _ _ => 1) c2_llm c2_state c2_cache 10 "/reset").2.values
        10).length = 3 ∧
    (conversation_cache id (fun _ _ => 1) c2_llm c2_state c2_cache 10 "/reset").2.items.length
        = 3 := by
  refine ⟨rfl, rfl, rfl⟩

/-- C2 (amended): `/reset` is processed exactly like any other query. If
the round succeeds (retrieval plus LLM call) with reply `resp` and context
`ctx`, then the reply returned is the LLM's — not a fixed acknowledgement
— and the snapshot afterwards is the previous snapshot EXTENDED by a new
entry recording `/reset` itself: the memory is not cleared. (Hypotheses:
all existing keys lie in the past, the cache is below capacity, and the
TTL is positive.) -/
theorem conversation_cache_reset_token_ordinary (stem : String → String)
    (sim : String → String → ℚ) (llm : String → String → Except String String)
    (st : RagState) (c : TTLCacheState) (now : Nat) (resp ctx : String)
    (hok : process_chat stem sim llm st (conversation_cache_query c now "/reset")
      = .ok (resp, ctx))
    (hkey : ∀ p ∈ c.items, p.1 < now)
    (hcap : c.items.length < c.maxsize)
    (httl : 0 < c.ttl) :
    (conversation_cache stem sim llm st c now "/reset").1 = .ok resp ∧
    (conversation_cache stem sim llm st c now "/reset").2.values now
      = c.values now ++ [⟨"/reset", ctx, resp, now⟩] := by
  unfold conversation_cache
  rw [hok]
  refine ⟨rfl, ?_⟩
  show (add_to_conversation_cache c now "/reset" ctx resp).values now
      = c.values now ++ [⟨"/reset", ctx, resp, now⟩]
  unfold add_to_conversation_cache TTLCacheState.setitem TTLCacheState.expireItems
    TTLCacheState.values
  dsimp only
  have hsub : ∀ p ∈ c.items.filter (fun it => decide (now < it.1 + c.ttl)), p.1 < now :=
    fun p hp => hkey p (List.mem_filter.mp hp).1
  have hany : ((c.items.filter (fun it => decide (now < it.1 + c.ttl))).any
      fun it => it.1 == now) = false := by
    simp only [List.any_eq_false]
    intro p hp
    simpa using Nat.ne_of_lt (hsub p hp)
  have hlenf : (c.items.filter (fun it => decide (now < it.1 + c.ttl))).length
      < c.maxsize :=
    lt_of_le_of_lt (List.length_filter_le _ _) hcap
  rw [hany]
  simp only [Bool.false_eq_true, if_false]
  rw [if_neg (by omega)]
  rw [List.filter_append]
  have hff : (c.items.filter (fun it => decide (now < it.1 + c.ttl))).filter
        (fun it => decide (now < it.1 + c.ttl))
      = c.items.filter (fun it => decide (now < it.1 + c.ttl)) :=
    List.filter_eq_self.mpr (fun p hp => (List.mem_filter.mp hp).2)
  have hsingle : ([((now : Nat), (⟨"/reset", ctx, resp, now⟩ : CacheEntry))].filter
        (fun it => decide (now < it.1 + c.ttl)))
      = [(now, ⟨"/reset", ctx, resp, now⟩)] := by
    simp only [List.filter_cons, List.filter_nil]
    rw [if_pos (by simpa using httl)]
  rw [hff, hsingle, List.map_append]
  simp only [List.map_cons, List.map_nil]

set_option maxRecDepth 8000 in
/-- Witness for the amended C2 at the concrete C2 inputs. -/
theorem conversation_cache_reset_token_ordinary_witness :
    process_chat id (fun _ _ => 1) c2_llm c2_state
        (conversation_cache_query c2_cache 10 "/reset") = .ok ("LLM REPLY", "DOC.") ∧
    (∀ p ∈ c2_cache.items, p.1 < 10) ∧
    c2_cache.items.length < c2_cache.maxsize ∧
    0 < c2_cache.ttl ∧
    ((conversation_cache id (fun _ _ => 1) c2_llm c2_state c2_cache 10 "/reset").1
        = .ok "LLM REPLY" ∧
      (conversation_cache id (fun _ _ => 1) c2_llm c2_state c2_cache 10 "/reset").2.values 10
        = c2_cache.values 10 ++ [⟨"/reset", "DOC.", "LLM REPLY", 10⟩]) :=
  ⟨rfl, by decide, by decide, by decide,
    conversation_cache_reset_token_ordinary id (fun _ _ => 1) c2_llm c2_state c2_cache
      10 "LLM REPLY" "DOC." rfl (by decide) (by decide) (by decide)⟩

instance (sims : List ℚ) : IsTotal Nat (argsortLe sims) := ⟨by
  intro a b
  unfold argsortLe
  rcases lt_trichotomy (sims.getD a 0) (sims.getD b 0) with h | h | h
  · exact .inl (.inl h)
  · rcases Nat.le_total a b with hab | hab
    · exact .inl (.inr ⟨h, hab⟩)
    · exact .inr (.inr ⟨h.symm, hab⟩)
  · exact .inr (.inl h)⟩

instance (sims : List ℚ) : IsTrans Nat (argsortLe sims) := ⟨by
  intro a b c hab hbc
  unfold argsortLe at *
  rcases hab with h1 | ⟨h1, h1'⟩ <;> rcases hbc with h2 | ⟨h2, h2'⟩
  · exact .inl (h1.trans h2)
  · exact .inl (h2 ▸ h1)
  · exact .inl (h1 ▸ h2)
  · exact .inr ⟨h1.trans h2, Nat.le_trans h1' h2'⟩⟩

/-- `argsort` is a permutation of the index range. -/
theorem argsortAsc_perm (sims : List ℚ) :
    List.Perm (argsortAsc sims) (List.range sims.length) :=
  List.perm_insertionSort _ _

/-- `argsort` membership is exactly the in-range indices. -/
theorem argsortAsc_mem (sims : List ℚ) (i : Nat) :
    i ∈ argsortAsc sims ↔ i < sims.length :=
  ((argsortAsc_perm sims).mem_iff).trans List.mem_range

/-- `argsort` lists each index once. -/
theorem argsortAsc_nodup (sims : List ℚ) : (argsortAsc sims).Nodup :=
  ((argsortAsc_perm sims).nodup_iff).mpr (List.nodup_range _)

/-- `argsort` is sorted ascending under the value-then-index comparison. -/
theorem argsortAsc_sorted (sims : List ℚ) :
    List.Pairwise (argsortLe sims) (argsortAsc sims) :=
  List.sorted_insertionSort _ _

/-- Every index produced by `best_match_indices` addresses the similarity
row (hence the fitted corpus). -/
theorem best_match_indices_lt (sims : List ℚ) (top_n : Nat) :
    ∀ i ∈ best_match_indices sims top_n, i < sims.length := by
  intro i hi
  unfold best_match_indices at hi
  have hmem : i ∈ (argsortAsc sims).reverse := by
    by_cases h : top_n = 0
    · rw [if_pos h] at hi
      exact hi
    · rw [if_neg h] at hi
      exact List.mem_of_mem_take hi
  rw [List.mem_reverse] at hmem
  exact (argsortAsc_mem sims i).mp hmem

/-- Exactly what `similarities.argsort()` guarantees about its result
(numpy's default sort kind is documented as not stable): SOME permutation
of the index range along which the similarities are ascending. Nothing
fixes the relative order of equal similarities. -/
def ArgsortRow (sims : List ℚ) (perm : List Nat) : Prop :=
  List.Perm perm (List.range sims.length) ∧
  List.Pairwise (fun i j => sims.getD i 0 ≤ sims.getD j 0) perm

instance (sims : List ℚ) (perm : List Nat) : Decidable (ArgsortRow sims perm) := by
  unfold ArgsortRow
  infer_instance

/-- `argsort()[-top_n:][::-1]` applied to an arbitrary admissible argsort
row (Python's `[-0:]` degenerates to the whole list). -/
def best_match_indices_of (perm : List Nat) (top_n : Nat) : List Nat :=
  if top_n = 0 then perm.reverse else perm.reverse.take top_n

/-- The embedding's executable tie resolution is one admissible argsort
row. -/
theorem argsortAsc_isArgsortRow (sims : List ℚ) :
    ArgsortRow sims (argsortAsc sims) := by
  refine ⟨argsortAsc_perm sims, (argsortAsc_sorted sims).imp ?_⟩
  intro i j h
  unfold argsortLe at h
  rcases h with h | ⟨h, _⟩
  · exact le_of_lt h
  · exact le_of_eq h

/-- On the executable row, `best_match_indices` is the generic slicing. -/
theorem best_match_indices_eq_of (sims : List ℚ) (top_n : Nat) :
    best_match_indices sims top_n = best_match_indices_of (argsortAsc sims) top_n := rfl

/-- The ranking contract `argsort()[-top_n:][::-1]` yields for `top_n ≥ 1`
over EVERY admissible argsort row, whatever its tie order: `min top_n n`
distinct in-range indices, similarities non-increasing along the result,
every selected index's similarity at least every excluded one's, and the
whole corpus once `top_n` reaches its size. -/
theorem best_match_indices_of_spec (sims : List ℚ) (perm : List Nat) (top_n : Nat)
    (hperm : ArgsortRow sims perm) (h1 : 1 ≤ top_n) :
    (best_match_indices_of perm top_n).length = min top_n sims.length ∧
    (∀ i ∈ best_match_indices_of perm top_n, i < sims.length) ∧
    (best_match_indices_of perm top_n).Nodup ∧
    List.Pairwise (fun i j => sims.getD j 0 ≤ sims.getD i 0)
      (best_match_indices_of perm top_n) ∧
    (∀ i ∈ best_match_indices_of perm top_n, ∀ j < sims.length,
      j ∉ best_match_indices_of perm top_n → sims.getD j 0 ≤ sims.getD i 0) ∧
    (sims.length ≤ top_n → ∀ j < sims.length, j ∈ best_match_indices_of perm top_n) := by
  obtain ⟨hP, hS⟩ := hperm
  have hne : ¬ top_n = 0 := by omega
  have hLlen : perm.reverse.length = sims.length := by
    rw [List.length_reverse, hP.length_eq, List.length_range]
  have hmemperm : ∀ i, i ∈ perm ↔ i < sims.length := fun i =>
    (hP.mem_iff).trans List.mem_range
  have hbmi : best_match_indices_of perm top_n = perm.reverse.take top_n := by
    unfold best_match_indices_of
    rw [if_neg hne]
  have hrevpair : List.Pairwise (fun i j => sims.getD j 0 ≤ sims.getD i 0)
      perm.reverse :=
    List.pairwise_reverse.mpr hS
  refine ⟨?_, ?_, ?_, ?_, ?_, ?_⟩
  · rw [hbmi, List.length_take, hLlen]
  · intro i hi
    rw [hbmi] at hi
    exact (hmemperm i).mp (List.mem_reverse.mp (List.mem_of_mem_take hi))
  · rw [hbmi]
    exact (List.nodup_reverse.mpr (hP.nodup_iff.mpr (List.nodup_range _))).sublist
      (List.take_sublist top_n _)
  · rw [hbmi]
    exact hrevpair.sublist (List.take_sublist top_n _)
  · intro i hi j hj hj2
    have hjmem : j ∈ perm.reverse := List.mem_reverse.mpr ((hmemperm j).mpr hj)
    rw [hbmi] at hi hj2
    have hjdrop : j ∈ perm.reverse.drop top_n := by
      rcases List.mem_append.mp
        ((List.take_append_drop top_n perm.reverse) ▸ hjmem) with hx | hx
      · exact absurd hx hj2
      · exact hx
    have hp2 : List.Pairwise (fun i j => sims.getD j 0 ≤ sims.getD i 0)
        (perm.reverse.take top_n ++ perm.reverse.drop top_n) := by
      rw [List.take_append_drop]
      exact hrevpair
    exact (List.pairwise_append.mp hp2).2.2 i hi j hjdrop
  · intro hlen j hj
    rw [hbmi, List.take_of_length_le (by rw [hLlen]; exact hlen)]
    exact List.mem_reverse.mpr ((hmemperm j).mpr hj)

/-- C3 (amended): for `top_n ≥ 1` and a successfully computed similarity
row, `find_best_matches` returns the `min(top_n, corpus size)` corpus
entries of highest similarity, in non-increasing similarity order, every
selected entry's similarity at least every excluded one's, and `top_n`
beyond the corpus size returns the whole corpus without error. The order
among EQUAL similarities is unspecified: numpy's default argsort kind
gives no tie guarantee, and the trailing-slice reversal in particular does
not preserve insertion order (see the counterexample). The ranking
properties are therefore proved for every admissible argsort row
(`ArgsortRow`); the embedding's executable row, along which the code path
produces `idxs`, is one of them. -/
theorem find_best_matches_ranking (stem : String → String)
    (sim : String → String → ℚ) (st : RagState) (q : String) (top_n : Nat)
    (sims : List ℚ) (idxs : List Nat) (perm : List Nat) (h1 : 1 ≤ top_n)
    (hsims : query_similarities stem sim st q = .ok sims)
    (h2 : find_best_matches_indices stem sim st q top_n = .ok idxs)
    (hperm : ArgsortRow sims perm) :
    ArgsortRow sims (argsortAsc sims) ∧
    idxs = best_match_indices_of (argsortAsc sims) top_n ∧
    find_best_matches stem sim st q top_n
      = .ok (idxs.map (fun i => st.original_documents.getD i ""),
             idxs.map (fun i => st.documents.getD i "")) ∧
    (best_match_indices_of perm top_n).length = min top_n sims.length ∧
    (∀ i ∈ best_match_indices_of perm top_n, i < sims.length) ∧
    (best_match_indices_of perm top_n).Nodup ∧
    List.Pairwise (fun i j => sims.getD j 0 ≤ sims.getD i 0)
      (best_match_indices_of perm top_n) ∧
    (∀ i ∈ best_match_indices_of perm top_n, ∀ j < sims.length,
      j ∉ best_match_indices_of perm top_n → sims.getD j 0 ≤ sims.getD i 0) ∧
    (sims.length ≤ top_n → ∀ j < sims.length, j ∈ best_match_indices_of perm top_n) := by
  have hx : idxs = best_match_indices sims top_n := by
    unfold find_best_matches_indices at h2
    rw [hsims] at h2
    simpa [Except.map] using h2.symm
  have hfbm : find_best_matches stem sim st q top_n
      = .ok (idxs.map (fun i => st.original_documents.getD i ""),
             idxs.map (fun i => st.documents.getD i "")) := by
    unfold find_best_matches
    rw [h2]
    rfl
  obtain ⟨hA, hB, hC, hD, hE, hF⟩ := best_match_indices_of_spec sims perm top_n hperm h1
  exact ⟨argsortAsc_isArgsortRow sims, hx.trans (best_match_indices_eq_of sims top_n),
    hfbm, hA, hB, hC, hD, hE, hF⟩

/-- Concrete retrieval state for evaluating C3: two identical stemmed
documents (equal TF-IDF vectors, hence equal similarity to any query) with
distinguishable original texts. -/
def c3_state : RagState := ⟨["x.", "x."], ["first", "second"], some ["x.", "x."]⟩

/-- A concrete similarity kernel: `1` when the stemmed query chunk equals
the stemmed document, else `0` (identical documents always tie). -/
def simEq : String → String → ℚ := fun q d => if q == d then 1 else 0

/-- C3 counterexample: both corpus entries have similarity `1` to the
query, yet `find_best_matches` returns `["second", "first"]` — not the
claimed stable insertion order `["first", "second"]` (on a two-element
tie even a stable ascending argsort is reversed by `[-top_n:][::-1]`). -/
theorem find_best_matches_tie_reversal_cex :
    query_similarities id simEq c3_state "x." = .ok [1, 1] ∧
    find_best_matches id simEq c3_state "x." 2
      = .ok (["second", "first"], ["x.", "x."]) ∧
    (["second", "first"] : List String) ≠ ["first", "second"] := by
  refine ⟨rfl, rfl, by decide⟩

/-- Witness for the amended C3 at concrete inputs (`top_n = 5` larger than
the 2-entry corpus, distinct similarities, the unique admissible row
`[1, 0]`). -/
theorem find_best_matches_ranking_witness :
    1 ≤ 5 ∧
    query_similarities id simEq ⟨["a.", "b."], ["A", "B"], some ["a.", "b."]⟩ "a."
      = .ok [1, 0] ∧
    find_best_matches_indices id simEq ⟨["a.", "b."], ["A", "B"], some ["a.", "b."]⟩ "a." 5
      = .ok [0, 1] ∧
    ArgsortRow [1, 0] [1, 0] ∧
    (ArgsortRow [1, 0] (argsortAsc [1, 0]) ∧
      ([0, 1] : List Nat) = best_match_indices_of (argsortAsc [1, 0]) 5 ∧
      find_best_matches id simEq ⟨["a.", "b."], ["A", "B"], some ["a.", "b."]⟩ "a." 5
        = .ok ([0, 1].map (fun i =>
            (⟨["a.", "b."], ["A", "B"], some ["a.", "b."]⟩ : RagState).original_documents.getD i ""),
               [0, 1].map (fun i =>
            (⟨["a.", "b."], ["A", "B"], some ["a.", "b."]⟩ : RagState).documents.getD i "")) ∧
      (best_match_indices_of [1, 0] 5).length = min 5 ([1, 0] : List ℚ).length ∧
      (∀ i ∈ best_match_indices_of [1, 0] 5, i < ([1, 0] : List ℚ).length) ∧
      (best_match_indices_of [1, 0] 5).Nodup ∧
      List.Pairwise
        (fun i j => ([1, 0] : List ℚ).getD j 0 ≤ ([1, 0] : List ℚ).getD i 0)
        (best_match_indices_of [1, 0] 5) ∧
      (∀ i ∈ best_match_indices_of [1, 0] 5, ∀ j < ([1, 0] : List ℚ).length,
        j ∉ best_match_indices_of [1, 0] 5 →
        ([1, 0] : List ℚ).getD j 0 ≤ ([1, 0] : List ℚ).getD i 0) ∧
      (([1, 0] : List ℚ).length ≤ 5 → ∀ j < ([1, 0] : List ℚ).length,
        j ∈ best_match_indices_of [1, 0] 5)) :=
  ⟨by decide, rfl, rfl, by decide,
    find_best_matches_ranking id simEq ⟨["a.", "b."], ["A", "B"], some ["a.", "b."]⟩ "a." 5
      [1, 0] [0, 1] [1, 0] (by decide) rfl rfl (by decide)⟩

/-- C8: after `reset_database()` and a fresh ingestion (`initialize` plus
the notebook's global `vectors` assignment), every index a successful
query returns addresses the NEW corpus: it is below the length of both
`original_documents` and `documents` (which the chunker keeps aligned), so
the list indexing in `find_best_matches` is in bounds and no stale
pre-reset index can be produced. -/
theorem query_after_reset_indices_in_bounds (stem : String → String)
    (sim : String → String → ℚ) (st0 : RagState)
    (original_chunks processed_chunks : List String)
    (halign : original_chunks.length = processed_chunks.length)
    (q : String) (top_n : Nat) (idxs : List Nat)
    (h : find_best_matches_indices stem sim
        (init_database (reset_database st0) original_chunks processed_chunks) q top_n
      = .ok idxs) :
    ∀ i ∈ idxs,
      i < (init_database (reset_database st0) original_chunks
            processed_chunks).original_documents.length ∧
      i < (init_database (reset_database st0) original_chunks
            processed_chunks).documents.length := by
  have hfields : init_database (reset_database st0) original_chunks processed_chunks
      = ⟨processed_chunks, original_chunks, some processed_chunks⟩ := rfl
  rw [hfields] at h ⊢
  intro i hi
  unfold find_best_matches_indices at h
  cases hqs : query_similarities stem sim
      ⟨processed_chunks, original_chunks, some processed_chunks⟩ q with
  | error e =>
    rw [hqs] at h
    exact absurd h (by simp [Except.map])
  | ok sims =>
    rw [hqs] at h
    have hx : best_match_indices sims top_n = idxs := by
      simpa [Except.map] using h
    have hlt : i < sims.length := best_match_indices_lt sims top_n i (hx ▸ hi)
    have hsimslen : sims.length = processed_chunks.length := by
      unfold query_similarities at hqs
      cases hq : (process_text stem q CHUNK_SIZE).2 with
      | nil =>
        rw [hq] at hqs
        exact absurd hqs (by simp)
      | cons qc rest =>
        rw [hq] at hqs
        have : processed_chunks.map (fun d => sim qc d) = sims := by
          simpa using hqs
        rw [← this, List.length_map]
    constructor
    · show i < original_chunks.length
      omega
    · show i < processed_chunks.length
      omega

/-- Witness for C8 at a concrete reset-then-ingest sequence. -/
theorem query_after_reset_indices_in_bounds_witness :
    (["A", "B"] : List String).length = (["a.", "b."] : List String).length ∧
    find_best_matches_indices id simEq
        (init_database (reset_database ⟨["old"], ["OLD"], some ["old"]⟩) ["A", "B"]
          ["a.", "b."]) "a." 3 = .ok [0, 1] ∧
    (∀ i ∈ ([0, 1] : List Nat),
      i < (init_database (reset_database ⟨["old"], ["OLD"], some ["old"]⟩) ["A", "B"]
            ["a.", "b."]).original_documents.length ∧
      i < (init_database (reset_database ⟨["old"], ["OLD"], some ["old"]⟩) ["A", "B"]
            ["a.", "b."]).documents.length) :=
  ⟨by decide, rfl,
    query_after_reset_indices_in_bounds id simEq ⟨["old"], ["OLD"], some ["old"]⟩
      ["A", "B"] ["a.", "b."] (by decide) "a." 3 [0, 1] rfl⟩

